import Mathlib

deriving instance DecidableEq for Except

/-!
Verification development for the multi-model serving container repository.

The repository's visible source is a Dockerfile and a build/deploy notebook;
the serving core they package (model cache, inference dispatcher, handler
adapter) is described by the specification but its code is not among the
repository's files. The core below is therefore modelled from the spec's
words: a sequential state-machine semantics in which every cache mutation
(insert, evict, reference-count change) is one atomic step, matching the
spec's concurrency model where all mutation of the loaded-model table occurs
under its lock and interleavings reduce to sequences of atomic operations.
The Dockerfile, by contrast, is embedded directly from the source.
-/

namespace MMS

/-- Error taxonomy of the spec: NotFound, Conflict, LoadFailed,
InferenceError, BadRequest, ResourceExhausted; `cancelled` marks a request
cancelled mid-flight (not an error class of the taxonomy, but an exit path
the dispatcher must handle). -/
inductive Err where
  | notFound
  | conflict
  | loadFailed
  | inferenceError
  | badRequest
  | resourceExhausted
  | cancelled
deriving DecidableEq, Repr

/-- Modelled from the spec: LoadedModel = \x7bdescriptor, in-memory model
object, reference count of in-flight requests, last-access timestamp\x7d.
`instId` stands for the identity of the in-memory model object, so "the same
LoadedModel instance" means "the same `instId`". -/
structure LoadedModel where
  name : String
  instId : Nat
  refCount : Nat
  lastAccess : Nat
deriving DecidableEq, Repr

/-- Handle returned by `acquire`: which model, and which loaded instance. -/
structure ModelHandle where
  name : String
  instId : Nat
deriving DecidableEq, Repr

/-- Modelled from the spec: InferenceRequest = \x7btarget model name, raw
payload bytes, content-type\x7d. -/
structure InferenceRequest where
  targetModel : String
  payload : String
  contentType : String
deriving DecidableEq, Repr

/-- Modelled from the spec: InferenceResponse = \x7braw payload bytes,
content-type, status\x7d. -/
structure InferenceResponse where
  payload : String
  contentType : String
  status : Nat
deriving DecidableEq, Repr

/-- Outcome of running a model's predict function on an input: it returns an
output, raises, or the request is cancelled while predict is in flight. -/
inductive PredictOutcome where
  | ok (out : String)
  | raise
  | cancel
deriving DecidableEq, Repr

/-- Modelled from the spec: the external collaborators of the cache and the
dispatcher, kept abstract as oracles. `registered` is the Model Store's
registry; `loadOk n k` is whether the k-th load attempt for model `n`
succeeds (load failures are transient, so a retry may succeed); `parse` is
the deserialize stage (`none` means a malformed payload); `runPredict` runs
the model's predict function. -/
structure Env where
  registered : String → Bool
  loadOk : String → Nat → Bool
  parse : String → Option String
  runPredict : String → String → PredictOutcome

/-- Modelled from the spec: the Model Cache's shared mutable state — the
loaded-model table with its configured capacity, a logical clock for
last-access timestamps, the next fresh instance identity, and the log of
load attempts performed (one entry per attempt, newest first). -/
structure CacheState where
  capacity : Nat
  entries : List LoadedModel
  clock : Nat
  nextInst : Nat
  loadLog : List String
deriving DecidableEq, Repr

/-- The cache's initial state: empty table, configured capacity. -/
def initState (cap : Nat) : CacheState :=
  { capacity := cap, entries := [], clock := 0, nextInst := 0, loadLog := [] }

/-- Look up the loaded-model entry for a name. -/
def findEntry (s : CacheState) (n : String) : Option LoadedModel :=
  s.entries.find? (fun e => e.name == n)

/-- Increment the reference count and refresh the last-access timestamp of
the entry for `n` (the atomic bump of a cache hit in `acquire`). -/
def bumpEntry (es : List LoadedModel) (n : String) (clk : Nat) : List LoadedModel :=
  es.map (fun e => if e.name == n then { e with refCount := e.refCount + 1, lastAccess := clk } else e)

/-- Remove every entry with the given name from the table. -/
def removeName (es : List LoadedModel) (n : String) : List LoadedModel :=
  es.filter (fun e => !(e.name == n))

/-- One step of the least-recently-accessed scan: keep the candidate with
the smaller last-access timestamp. -/
def lruStep (acc : Option LoadedModel) (e : LoadedModel) : Option LoadedModel :=
  match acc with
  | none => some e
  | some b => if e.lastAccess < b.lastAccess then some e else some b

/-- Modelled from the spec: the eviction policy — among the loaded models
with zero reference count, pick the one with the least last-access
timestamp (the least-recently-accessed evictable model); `none` when every
loaded model is referenced. -/
def selectVictim (es : List LoadedModel) : Option LoadedModel :=
  (es.filter (fun e => e.refCount == 0)).foldl lruStep none

/-- Modelled from the spec: make room for one more loaded model. If the
table is below capacity there is room already; otherwise evict the selected
victim; if no loaded model has zero reference count, the load is rejected
(`none`, surfaced as ResourceExhausted — the spec's explicit rejection
policy choice). -/
def makeRoom (s : CacheState) : Option CacheState :=
  if s.entries.length < s.capacity then some s
  else
    match selectVictim s.entries with
    | some v => some { s with entries := removeName s.entries v.name }
    | none => none

/-- Modelled from the spec: Model Cache `acquire(name)`. A hit increments
the reference count atomically with the lookup; a miss resolves the name in
the Model Store (NotFound if unregistered), makes room (ResourceExhausted
if impossible), then attempts the load: a failed load is logged but leaves
no entry (LoadFailed does not poison the cache), a successful load inserts
a fresh LoadedModel with reference count 1. -/
def acquire (env : Env) (n : String) (s : CacheState) : Except Err ModelHandle × CacheState :=
  match s.entries.find? (fun e => e.name == n) with
  | some e =>
      (Except.ok { name := n, instId := e.instId },
       { s with entries := bumpEntry s.entries n s.clock, clock := s.clock + 1 })
  | none =>
      if env.registered n then
        match makeRoom s with
        | none => (Except.error Err.resourceExhausted, s)
        | some s1 =>
            let k := s1.loadLog.count n
            let s2 := { s1 with loadLog := n :: s1.loadLog }
            if env.loadOk n k then
              (Except.ok { name := n, instId := s2.nextInst },
               { s2 with
                   entries := { name := n, instId := s2.nextInst, refCount := 1, lastAccess := s2.clock } :: s2.entries,
                   clock := s2.clock + 1,
                   nextInst := s2.nextInst + 1 })
            else
              (Except.error Err.loadFailed, s2)
      else (Except.error Err.notFound, s)

/-- Modelled from the spec: Model Cache `release(handle)` decrements the
reference count of the model the handle names. -/
def release (s : CacheState) (n : String) : CacheState :=
  { s with entries := s.entries.map (fun e => if e.name == n then { e with refCount := e.refCount - 1 } else e) }

/-- Modelled from the spec: the management-plane `unload(name)` eviction: a
model is removed only when its reference count is zero; a referenced model
is never evicted. -/
def unload (s : CacheState) (n : String) : CacheState :=
  match s.entries.find? (fun e => e.name == n) with
  | some e => if e.refCount == 0 then { s with entries := removeName s.entries n } else s
  | none => s

/-- One atomic cache operation: acquire, release, or management-plane
unload (explicit evict). Loads and policy evictions happen inside
`acquire`. -/
inductive Op where
  | acq (n : String)
  | rel (n : String)
  | unl (n : String)
deriving DecidableEq, Repr

/-- Apply one atomic cache operation to the state. -/
def applyOp (env : Env) (s : CacheState) (op : Op) : CacheState :=
  match op with
  | Op.acq n => (acquire env n s).2
  | Op.rel n => release s n
  | Op.unl n => unload s n

/-- Run a sequence of atomic cache operations (an interleaving of the
concurrent callers' steps). -/
def runOps (env : Env) (s : CacheState) (ops : List Op) : CacheState :=
  ops.foldl (applyOp env) s

/-- Resource events the dispatcher emits: one `acqEv` per acquire it
performed, one `relEv` per release. -/
inductive Event where
  | acqEv (n : String)
  | relEv (n : String)
deriving DecidableEq, BEq, Repr

/-- Modelled from the spec: Inference Dispatcher `dispatch(request)`.
Malformed requests fail fast with BadRequest before any model is acquired;
acquire errors propagate; after a successful acquire the predict stage runs
and `release` is called on every exit path — success, predict-stage error
(wrapped as InferenceError), and cancellation. The third component is the
trace of acquire/release events the call performed. -/
def dispatch (env : Env) (req : InferenceRequest) (s : CacheState) :
    Except Err InferenceResponse × CacheState × List Event :=
  match env.parse req.payload with
  | none => (Except.error Err.badRequest, s, [])
  | some input =>
    match acquire env req.targetModel s with
    | (Except.error e, s1) => (Except.error e, s1, [])
    | (Except.ok _, s1) =>
      match env.runPredict req.targetModel input with
      | PredictOutcome.ok out =>
          (Except.ok { payload := out, contentType := req.contentType, status := 200 },
           release s1 req.targetModel,
           [Event.acqEv req.targetModel, Event.relEv req.targetModel])
      | PredictOutcome.raise =>
          (Except.error Err.inferenceError,
           release s1 req.targetModel,
           [Event.acqEv req.targetModel, Event.relEv req.targetModel])
      | PredictOutcome.cancel =>
          (Except.error Err.cancelled,
           release s1 req.targetModel,
           [Event.acqEv req.targetModel, Event.relEv req.targetModel])

/-- One Dockerfile instruction, as far as the claims need them. -/
inductive DockerInstr where
  | fromBase (base : String)
  | label (key value : String)
  | runCmd (cmd : String)
  | envVar (key value : String)
  | workdir (dir : String)
  | copy (src dst : String)
  | entrypoint (argv : List String)
deriving DecidableEq, Repr

/-- The repository's Dockerfile, instruction by instruction. -/
def dockerfile : List DockerInstr :=
  [DockerInstr.fromBase "ubuntu:16.04",
   DockerInstr.label "maintainer" "Giuseppe A. Porcelli",
   DockerInstr.label "com.amazonaws.sagemaker.capabilities.multi-models" "true",
   DockerInstr.label "com.amazonaws.sagemaker.capabilities.accept-bind-to-port" "true",
   DockerInstr.runCmd "apt-get update && apt-get -y install build-essential libatlas-dev git wget curl openjdk-8-jdk-headless",
   DockerInstr.runCmd "echo 'installing miniconda' && curl -LO http://repo.continuum.io/miniconda/Miniconda3-latest-Linux-x86_64.sh && bash Miniconda3-latest-Linux-x86_64.sh -bfp /miniconda3 && rm Miniconda3-latest-Linux-x86_64.sh",
   DockerInstr.envVar "PATH" "/miniconda3/bin:$\x7bPATH\x7d",
   DockerInstr.runCmd "conda install python=3.6 && conda update -y conda && conda install -c conda-forge pyarrow=0.14.1 && conda install -c mlio -c conda-forge mlio-py=0.1",
   DockerInstr.envVar "PYTHONDONTWRITEBYTECODE" "1",
   DockerInstr.envVar "PYTHONUNBUFFERED" "1",
   DockerInstr.envVar "PYTHONIOENCODING" "UTF-8",
   DockerInstr.envVar "LANG" "C.UTF-8",
   DockerInstr.envVar "LC_ALL" "C.UTF-8",
   DockerInstr.runCmd "pip install --no-cache -I xgboost==0.90",
   DockerInstr.runCmd "pip --no-cache-dir install multi-model-server sagemaker-inference retrying",
   DockerInstr.workdir "/",
   DockerInstr.copy "code/multi_model_serving-1.0.0.tar.gz" "/multi_model_serving-1.0.0.tar.gz",
   DockerInstr.runCmd "pip install /multi_model_serving-1.0.0.tar.gz && rm /multi_model_serving-1.0.0.tar.gz",
   DockerInstr.copy "code/serve.py" "/serve.py",
   DockerInstr.entrypoint ["python", "serve.py"]]

/-- The value the image's metadata holds for a label key: the last LABEL
instruction for that key wins, as in Docker. -/
def lookupLabel (df : List DockerInstr) (k : String) : Option String :=
  df.foldl
    (fun acc i =>
      match i with
      | DockerInstr.label k2 v => if k2 == k then some v else acc
      | _ => acc)
    none

/-- The image's entrypoint: the last ENTRYPOINT instruction wins. -/
def imageEntrypoint (df : List DockerInstr) : Option (List String) :=
  df.foldl
    (fun acc i =>
      match i with
      | DockerInstr.entrypoint a => some a
      | _ => acc)
    none

/-- A built image: its instruction list is frozen at build time. -/
structure DockerImage where
  instrs : List DockerInstr
deriving DecidableEq, Repr

/-- The image the repository's Dockerfile builds. -/
def mmsImage : DockerImage :=
  { instrs := dockerfile }

/-- A container started from an image with some runtime environment.
Labels and entrypoint are static image configuration: a container cannot
change them, only its runtime environment varies. -/
structure Container where
  image : DockerImage
  runtimeEnv : List (String × String)

/-- The label metadata a running container advertises (inherited from its
image). -/
def Container.labels (c : Container) (k : String) : Option String :=
  lookupLabel c.image.instrs k

/-- The entrypoint a container runs at start (inherited from its image). -/
def Container.entry (c : Container) : Option (List String) :=
  imageEntrypoint c.image.instrs

/-- Look up an environment variable. -/
def lookupEnv (env : List (String × String)) (k : String) : Option String :=
  (env.find? (fun p => p.1 == k)).map Prod.snd

/-- Runtime configuration of the serving container. -/
structure ContainerConfig where
  entryPointScript : String
  bindPort : Nat
deriving DecidableEq, Repr

/-- Modelled from the spec: serve.py and the handler service are not among
the repository's files; per the spec, configuration comes from the
environment — SAGEMAKER_PROGRAM selects the name of the user-supplied
entry-point (inference) script, and SAGEMAKER_BIND_TO_PORT (honoured
because the image sets the accept-bind-to-port capability label) selects
the HTTP bind port, defaulting to 8080. -/
def configFromEnv (env : List (String × String)) : ContainerConfig :=
  { entryPointScript := (lookupEnv env "SAGEMAKER_PROGRAM").getD "inference.py",
    bindPort :=
      match lookupEnv env "SAGEMAKER_BIND_TO_PORT" with
      | some p => p.toNat?.getD 8080
      | none => 8080 }

/-- The environment the notebook deploys its models with: SAGEMAKER_PROGRAM
names the custom inference script `predictor`. -/
def notebookModelEnv : List (String × String) :=
  [("SAGEMAKER_PROGRAM", "predictor")]

/-- Number of occurrences of one event in a trace. -/
def countEv (evs : List Event) (ev : Event) : Nat :=
  evs.countP (fun e => decide (e = ev))

/-- A concrete environment for scenario checks: two registered models that
always load; payload "bad" is malformed; input "boom" makes predict raise
and "stop" cancels the request mid-predict. -/
def demoEnv : Env :=
  { registered := fun n => n == "m1" || n == "m2",
    loadOk := fun _ _ => true,
    parse := fun p => if p == "bad" then none else some p,
    runPredict := fun _ i =>
      if i == "boom" then PredictOutcome.raise
      else if i == "stop" then PredictOutcome.cancel
      else PredictOutcome.ok (i ++ "!") }

/-- A concrete environment whose first load attempt for any model fails and
whose later attempts succeed. -/
def flakyEnv : Env :=
  { demoEnv with loadOk := fun _ k => decide (1 ≤ k) }

/-- A sequence of `k` acquire calls for the same name — the atomic steps of
`k` concurrent callers racing on one model — collecting every caller's
result and the final state. -/
def acquireIter (env : Env) (n : String) : Nat → CacheState → List (Except Err ModelHandle) × CacheState
  | 0, s => ([], s)
  | Nat.succ k, s =>
      (((acquire env n s).1 :: (acquireIter env n k (acquire env n s).2).1),
       (acquireIter env n k (acquire env n s).2).2)

/-- C1: on every exit path of `dispatch` — BadRequest, acquire error,
predict success, predict-stage error, and cancellation — the trace holds
exactly one release per acquire performed (and at most one acquire). -/
theorem dispatch_release_once_per_acquire (env : Env) (req : InferenceRequest)
    (s : CacheState) (n : String) :
    countEv (dispatch env req s).2.2 (Event.acqEv n) = countEv (dispatch env req s).2.2 (Event.relEv n) ∧
    countEv (dispatch env req s).2.2 (Event.acqEv n) ≤ 1 := by
  unfold dispatch
  rcases henv : env.parse req.payload with _ | input
  · simp [countEv]
  · rcases hacq : acquire env req.targetModel s with ⟨r, s1⟩
    rcases r with e | hdl
    · simp [countEv]
    · rcases hpred : env.runPredict req.targetModel input with out | _ | _ <;>
        simp only [hpred, countEv, List.countP_cons, List.countP_nil] <;>
        · by_cases h : req.targetModel = n <;> simp [h]

/-- C6: a malformed request fails fast: `dispatch` returns BadRequest, no
model is acquired (the event trace is empty), and the cache state is
exactly the state before the call. -/
theorem malformed_request_fails_fast_no_side_effects (env : Env) (req : InferenceRequest)
    (s : CacheState) (h : env.parse req.payload = none) :
    dispatch env req s = (Except.error Err.badRequest, s, []) := by
  simp [dispatch, h]

/-- Witness for the malformed-request theorem at a concrete input. -/
theorem malformed_request_fails_fast_no_side_effects_witness :
    dispatch demoEnv { targetModel := "m1", payload := "bad", contentType := "text/csv" } (initState 2) =
      (Except.error Err.badRequest, initState 2, []) :=
  malformed_request_fails_fast_no_side_effects demoEnv
    { targetModel := "m1", payload := "bad", contentType := "text/csv" } (initState 2) rfl

/-- C9: the serving container is configured through environment variables:
SAGEMAKER_PROGRAM selects the name of the user-supplied entry-point
(inference) script — as the notebook's deployments do, naming `predictor` —
and SAGEMAKER_BIND_TO_PORT selects the HTTP bind port, a variable the image
advertises it honours through its accept-bind-to-port capability label. -/
theorem env_vars_select_script_and_port :
    (∀ (env : List (String × String)) (name : String),
       lookupEnv env "SAGEMAKER_PROGRAM" = some name →
       (configFromEnv env).entryPointScript = name) ∧
    (∀ (env : List (String × String)) (pstr : String) (p : Nat),
       lookupEnv env "SAGEMAKER_BIND_TO_PORT" = some pstr → pstr.toNat? = some p →
       (configFromEnv env).bindPort = p) ∧
    (configFromEnv notebookModelEnv).entryPointScript = "predictor" ∧
    lookupLabel dockerfile "com.amazonaws.sagemaker.capabilities.accept-bind-to-port" = some "true" := by
  refine ⟨?_, ?_, rfl, by decide⟩
  · intro env name h
    simp [configFromEnv, h]
  · intro env pstr p h1 h2
    simp [configFromEnv, h1, h2]

/-- C10: every container started from the image the repository's Dockerfile
builds advertises multi-model support and SAGEMAKER_BIND_TO_PORT support
through its build-time labels, and its entrypoint runs serve.py with
Python. -/
theorem container_static_declarations (c : Container) (h : c.image = mmsImage) :
    c.labels "com.amazonaws.sagemaker.capabilities.multi-models" = some "true" ∧
    c.labels "com.amazonaws.sagemaker.capabilities.accept-bind-to-port" = some "true" ∧
    c.entry = some ["python", "serve.py"] := by
  cases c with
  | mk i e =>
      cases h
      exact ⟨rfl, rfl, rfl⟩

/-- Witness for the container-declarations theorem at a concrete container. -/
theorem container_static_declarations_witness :
    (Container.labels { image := mmsImage, runtimeEnv := [] }
        "com.amazonaws.sagemaker.capabilities.multi-models" = some "true") ∧
    (Container.labels { image := mmsImage, runtimeEnv := [] }
        "com.amazonaws.sagemaker.capabilities.accept-bind-to-port" = some "true") ∧
    (Container.entry { image := mmsImage, runtimeEnv := [] } = some ["python", "serve.py"]) :=
  container_static_declarations { image := mmsImage, runtimeEnv := [] } rfl

/-- A result of the LRU scan comes from the scanned list or from the
accumulator. -/
lemma lruStep_foldl_mem :
    ∀ (l : List LoadedModel) (acc : Option LoadedModel) (v : LoadedModel),
      l.foldl lruStep acc = some v → v ∈ l ∨ acc = some v := by
  intro l
  induction l with
  | nil => intro acc v h; exact Or.inr h
  | cons e t ih =>
      intro acc v h
      rcases ih (lruStep acc e) v h with h1 | h1
      · exact Or.inl (List.mem_cons_of_mem _ h1)
      · cases acc with
        | none =>
            have : e = v := by simpa [lruStep] using h1
            exact Or.inl (this ▸ List.mem_cons_self e t)
        | some b =>
            by_cases hc : e.lastAccess < b.lastAccess
            · have : e = v := by simpa [lruStep, hc] using h1
              exact Or.inl (this ▸ List.mem_cons_self e t)
            · have : b = v := by simpa [lruStep, hc] using h1
              exact Or.inr (by rw [this])

/-- The LRU scan's result has the least last-access timestamp among the
scanned elements and any accumulator candidate. -/
lemma lruStep_foldl_min :
    ∀ (l : List LoadedModel) (acc : Option LoadedModel) (v : LoadedModel),
      l.foldl lruStep acc = some v →
      (∀ e ∈ l, v.lastAccess ≤ e.lastAccess) ∧
      (∀ b, acc = some b → v.lastAccess ≤ b.lastAccess) := by
  intro l
  induction l with
  | nil =>
      intro acc v h
      refine ⟨?_, ?_⟩
      · intro e he
        cases he
      · intro b hb
        rw [hb] at h
        cases h
        exact Nat.le_refl _
  | cons e t ih =>
      intro acc v h
      have hstep := ih (lruStep acc e) v h
      have hle : v.lastAccess ≤ e.lastAccess := by
        cases acc with
        | none => exact hstep.2 e (by simp [lruStep])
        | some b =>
            by_cases hc : e.lastAccess < b.lastAccess
            · exact hstep.2 e (by simp [lruStep, hc])
            · exact Nat.le_trans (hstep.2 b (by simp [lruStep, hc])) (Nat.le_of_not_lt hc)
      refine ⟨?_, ?_⟩
      · intro e' he'
        rcases List.mem_cons.mp he' with rfl | he'
        · exact hle
        · exact hstep.1 e' he'
      · intro b hb
        subst hb
        by_cases hc : e.lastAccess < b.lastAccess
        · exact Nat.le_trans hle (Nat.le_of_lt hc)
        · exact hstep.2 b (by simp [lruStep, hc])

/-- A selected eviction victim is a loaded model of the table, has zero
reference count, and is least-recently accessed among the zero-reference
models. -/
lemma selectVictim_spec (es : List LoadedModel) (v : LoadedModel)
    (h : selectVictim es = some v) :
    v ∈ es ∧ v.refCount = 0 ∧
    ∀ e ∈ es, e.refCount = 0 → v.lastAccess ≤ e.lastAccess := by
  unfold selectVictim at h
  rcases lruStep_foldl_mem _ _ _ h with hm | hm
  · have hv : (v.refCount == 0) = true := (List.mem_filter.mp hm).2
    have hmem : v ∈ es := (List.mem_filter.mp hm).1
    refine ⟨hmem, by simpa using hv, ?_⟩
    intro e he hrc
    exact (lruStep_foldl_min _ _ _ h).1 e (List.mem_filter.mpr ⟨he, by simp [hrc]⟩)
  · cases hm

/-- When every loaded model is referenced, no victim is selected. -/
lemma selectVictim_none_of_all_referenced (es : List LoadedModel)
    (h : ∀ e ∈ es, e.refCount ≠ 0) : selectVictim es = none := by
  unfold selectVictim
  have hnil : es.filter (fun e => e.refCount == 0) = [] := by
    rw [List.filter_eq_nil_iff]
    intro e he
    simpa using h e he
  rw [hnil]
  rfl

/-- Removing a member's name strictly shrinks the table. -/
lemma removeName_length_lt (es : List LoadedModel) (v : LoadedModel) (hv : v ∈ es) :
    (removeName es v.name).length < es.length := by
  induction es with
  | nil => cases hv
  | cons a t ih =>
      rcases List.mem_cons.mp hv with h | hv2
      · subst h
        simp only [removeName, List.filter_cons, beq_self_eq_true, Bool.not_true, if_false,
          Bool.false_eq_true, List.length_cons]
        exact Nat.lt_succ_of_le (List.length_filter_le _ t)
      · by_cases ha : (!(a.name == v.name)) = true
        · simp only [removeName, List.filter_cons, if_pos ha, List.length_cons]
          exact Nat.succ_lt_succ (ih hv2)
        · simp only [removeName, List.filter_cons, if_neg ha, List.length_cons]
          exact Nat.lt_succ_of_lt (ih hv2)

/-- `makeRoom` only shrinks the table, leaves the configuration and logs
alone, and leaves strictly fewer loaded models than the capacity. -/
lemma makeRoom_spec (s s1 : CacheState) (h : s.entries.length ≤ s.capacity)
    (hm : makeRoom s = some s1) :
    s1.capacity = s.capacity ∧ s1.clock = s.clock ∧ s1.nextInst = s.nextInst ∧
    s1.loadLog = s.loadLog ∧ s1.entries.length < s.capacity ∧
    List.Sublist s1.entries s.entries := by
  unfold makeRoom at hm
  by_cases hlt : s.entries.length < s.capacity
  · rw [if_pos hlt] at hm
    cases hm
    exact ⟨rfl, rfl, rfl, rfl, hlt, List.Sublist.refl _⟩
  · rw [if_neg hlt] at hm
    cases hv : selectVictim s.entries with
    | none => rw [hv] at hm; cases hm
    | some v =>
        rw [hv] at hm
        cases hm
        have hvm := (selectVictim_spec _ _ hv).1
        have hlen := removeName_length_lt s.entries v hvm
        exact ⟨rfl, rfl, rfl, rfl, Nat.lt_of_lt_of_le hlen h, List.filter_sublist _⟩

/-- `makeRoom` touches only the table. -/
lemma makeRoom_config (s s1 : CacheState) (hm : makeRoom s = some s1) :
    s1.capacity = s.capacity ∧ s1.clock = s.clock ∧ s1.nextInst = s.nextInst ∧
    s1.loadLog = s.loadLog := by
  unfold makeRoom at hm
  by_cases hlt : s.entries.length < s.capacity
  · rw [if_pos hlt] at hm
    cases hm
    exact ⟨rfl, rfl, rfl, rfl⟩
  · rw [if_neg hlt] at hm
    cases hv : selectVictim s.entries with
    | none => rw [hv] at hm; cases hm
    | some v => rw [hv] at hm; cases hm; exact ⟨rfl, rfl, rfl, rfl⟩

/-- No atomic cache operation changes the configured capacity. -/
lemma applyOp_capacity (env : Env) (op : Op) (s : CacheState) :
    (applyOp env s op).capacity = s.capacity := by
  cases op with
  | acq n =>
      show (acquire env n s).2.capacity = s.capacity
      unfold acquire
      split
      · rfl
      · split
        · split
          · rfl
          · rename_i s1 hm
            dsimp only
            split
            · exact (makeRoom_config s s1 hm).1
            · exact (makeRoom_config s s1 hm).1
        · rfl
  | rel n => rfl
  | unl n =>
      show (unload s n).capacity = s.capacity
      unfold unload
      split
      · split
        · rfl
        · rfl
      · rfl

/-- `acquire` keeps the configured capacity and never pushes the table
beyond it. -/
lemma acquire_le_capacity (env : Env) (n : String) (s : CacheState)
    (h : s.entries.length ≤ s.capacity) :
    (acquire env n s).2.entries.length ≤ s.capacity ∧
    (acquire env n s).2.capacity = s.capacity := by
  unfold acquire
  cases hf : s.entries.find? (fun e => e.name == n) with
  | some e => exact ⟨by simpa [bumpEntry] using h, rfl⟩
  | none =>
      by_cases hr : env.registered n
      · simp only [hr, if_true]
        cases hm : makeRoom s with
        | none => exact ⟨h, rfl⟩
        | some s1 =>
            obtain ⟨hcap, _, _, _, hlen, _⟩ := makeRoom_spec s s1 h hm
            by_cases hl : env.loadOk n (s1.loadLog.count n)
            · simp only [hl, if_true]
              exact ⟨Nat.succ_le_of_lt hlen, hcap⟩
            · simp only [hl, if_false]
              exact ⟨Nat.le_of_lt hlen, hcap⟩
      · simp only [hr, if_false]
        exact ⟨h, rfl⟩

/-- Every atomic cache operation keeps the configured capacity and keeps
the loaded-model count within it. -/
lemma applyOp_le_capacity (env : Env) (op : Op) (s : CacheState)
    (h : s.entries.length ≤ s.capacity) :
    (applyOp env s op).entries.length ≤ s.capacity ∧
    (applyOp env s op).capacity = s.capacity := by
  cases op with
  | acq n => exact acquire_le_capacity env n s h
  | rel n =>
      refine ⟨?_, rfl⟩
      show (release s n).entries.length ≤ s.capacity
      simpa [release] using h
  | unl n =>
      refine ⟨?_, ?_⟩
      · show (unload s n).entries.length ≤ s.capacity
        unfold unload
        split
        · split
          · simp only [removeName]
            exact Nat.le_trans (List.length_filter_le _ _) h
          · exact h
        · exact h
      · show (unload s n).capacity = s.capacity
        unfold unload
        split
        · split
          · rfl
          · rfl
        · rfl

/-- Running any operation sequence keeps the loaded-model count within the
configured capacity. -/
lemma runOps_le_capacity (env : Env) (ops : List Op) :
    ∀ s : CacheState, s.entries.length ≤ s.capacity →
      (runOps env s ops).entries.length ≤ (runOps env s ops).capacity := by
  induction ops with
  | nil => intro s h; exact h
  | cons op t ih =>
      intro s h
      have hstep := applyOp_le_capacity env op s h
      have := ih (applyOp env s op) (by rw [hstep.2]; exact hstep.1)
      simpa [runOps] using this

/-- C3: for every sequence of cache operations (acquire with its internal
load and policy eviction, release, and management-plane unload) run from
the empty cache, the number of loaded models never exceeds the configured
capacity. -/
theorem cache_loaded_count_never_exceeds_capacity (env : Env) (cap : Nat) (ops : List Op) :
    (runOps env (initState cap) ops).entries.length ≤ cap := by
  have h0 : (initState cap).entries.length ≤ (initState cap).capacity := by
    simp [initState]
  have h1 := runOps_le_capacity env ops (initState cap) h0
  have h2 : (runOps env (initState cap) ops).capacity = cap := by
    have hgen : ∀ (l : List Op) (s : CacheState), (runOps env s l).capacity = s.capacity := by
      intro l
      induction l with
      | nil => intro s; rfl
      | cons op t ih =>
          intro s
          have := ih (applyOp env s op)
          simpa [runOps, applyOp_capacity env op s] using this
    exact hgen ops (initState cap)
  rw [h2] at h1
  exact h1

/-- When the target is not loaded, the table is full, and every loaded
model is referenced, `acquire` rejects the load with ResourceExhausted and
changes nothing. -/
lemma acquire_exhausted (env : Env) (n : String) (s : CacheState)
    (hmiss : findEntry s n = none)
    (hreg : env.registered n = true)
    (hfull : s.capacity ≤ s.entries.length)
    (hall : ∀ e ∈ s.entries, e.refCount ≠ 0) :
    acquire env n s = (Except.error Err.resourceExhausted, s) := by
  have hmiss' : s.entries.find? (fun e => e.name == n) = none := hmiss
  have hroom : makeRoom s = none := by
    unfold makeRoom
    rw [if_neg (Nat.not_lt.mpr hfull), selectVictim_none_of_all_referenced s.entries hall]
  simp [acquire, hmiss', hroom, hreg]

/-- C5: the eviction policy. A selected victim is always the
least-recently-accessed loaded model among those with zero reference
count; when the target is unloaded, the cache is full and every loaded
model is referenced, the load is rejected with ResourceExhausted (the
documented policy choice); and in the capacity-1 scenario, a held "m1"
blocks the load of "m2" until "m1" is released, after which "m2" loads
successfully and "m1" has been evicted. -/
theorem eviction_lru_and_exhaustion_policy :
    (∀ (es : List LoadedModel) (v : LoadedModel), selectVictim es = some v →
        v ∈ es ∧ v.refCount = 0 ∧ ∀ e ∈ es, e.refCount = 0 → v.lastAccess ≤ e.lastAccess) ∧
    (∀ (env : Env) (n : String) (s : CacheState),
        findEntry s n = none → env.registered n = true →
        s.capacity ≤ s.entries.length → (∀ e ∈ s.entries, e.refCount ≠ 0) →
        acquire env n s = (Except.error Err.resourceExhausted, s)) ∧
    ((acquire demoEnv "m2" (acquire demoEnv "m1" (initState 1)).2).1 =
        Except.error Err.resourceExhausted) ∧
    ((acquire demoEnv "m2" (release (acquire demoEnv "m1" (initState 1)).2 "m1")).1 =
        Except.ok { name := "m2", instId := 1 }) ∧
    (findEntry (acquire demoEnv "m2" (release (acquire demoEnv "m1" (initState 1)).2 "m1")).2 "m1" = none) := by
  exact ⟨selectVictim_spec, acquire_exhausted, by decide, by decide, by decide⟩

/-- Bumping a reference count renames nothing. -/
lemma bumpEntry_names (es : List LoadedModel) (n : String) (c : Nat) :
    (bumpEntry es n c).map LoadedModel.name = es.map LoadedModel.name := by
  unfold bumpEntry
  rw [List.map_map]
  apply List.map_congr_left
  intro e _
  by_cases h : e.name = n <;> simp [h]

/-- Releasing renames nothing. -/
lemma release_names (s : CacheState) (n : String) :
    (release s n).entries.map LoadedModel.name = s.entries.map LoadedModel.name := by
  unfold release
  rw [List.map_map]
  apply List.map_congr_left
  intro e _
  by_cases h : e.name = n <;> simp [h]

/-- `makeRoom` only removes table entries. -/
lemma makeRoom_sublist (s s1 : CacheState) (hm : makeRoom s = some s1) :
    List.Sublist s1.entries s.entries := by
  unfold makeRoom at hm
  by_cases hlt : s.entries.length < s.capacity
  · rw [if_pos hlt] at hm
    cases hm
    exact List.Sublist.refl _
  · rw [if_neg hlt] at hm
    cases hv : selectVictim s.entries with
    | none => rw [hv] at hm; cases hm
    | some v => rw [hv] at hm; cases hm; exact List.filter_sublist _

/-- In a table with no duplicate names, entries are determined by their
name. -/
lemma name_inj_of_nodup (es : List LoadedModel)
    (h : (es.map LoadedModel.name).Nodup) (e1 e2 : LoadedModel)
    (h1 : e1 ∈ es) (h2 : e2 ∈ es) (hn : e1.name = e2.name) : e1 = e2 :=
  List.inj_on_of_nodup_map h h1 h2 hn

/-- `makeRoom` never removes a referenced entry (in a duplicate-free
table). -/
lemma makeRoom_keeps_referenced (s s1 : CacheState) (hm : makeRoom s = some s1)
    (hnodup : (s.entries.map LoadedModel.name).Nodup)
    (e : LoadedModel) (he : e ∈ s.entries) (hrc : e.refCount ≠ 0) :
    e ∈ s1.entries := by
  unfold makeRoom at hm
  by_cases hlt : s.entries.length < s.capacity
  · rw [if_pos hlt] at hm
    cases hm
    exact he
  · rw [if_neg hlt] at hm
    cases hv : selectVictim s.entries with
    | none => rw [hv] at hm; cases hm
    | some v =>
        rw [hv] at hm
        cases hm
        obtain ⟨hvm, hvz, _⟩ := selectVictim_spec _ _ hv
        have hne : e.name ≠ v.name := by
          intro hex
          exact hrc (by rw [name_inj_of_nodup s.entries hnodup e v he hvm hex, hvz])
        exact List.mem_filter.mpr ⟨he, by simp [hne]⟩

/-- Every atomic operation preserves the no-two-entries-per-name
invariant. -/
lemma applyOp_nodup (env : Env) (op : Op) (s : CacheState)
    (h : (s.entries.map LoadedModel.name).Nodup) :
    ((applyOp env s op).entries.map LoadedModel.name).Nodup := by
  cases op with
  | acq n =>
      show (((acquire env n s).2.entries.map LoadedModel.name)).Nodup
      unfold acquire
      split
      · simpa [bumpEntry_names] using h
      · rename_i hf
        split
        · split
          · exact h
          · rename_i s1 hm
            have hsub : List.Sublist (s1.entries.map LoadedModel.name) (s.entries.map LoadedModel.name) :=
              (makeRoom_sublist s s1 hm).map _
            have hnosub : (s1.entries.map LoadedModel.name).Nodup := h.sublist hsub
            have hnotin : ∀ e ∈ s.entries, e.name ≠ n := by
              intro e hemem hex
              have := List.find?_eq_none.mp hf e hemem
              simp [hex] at this
            dsimp only
            split
            · refine List.Nodup.cons ?_ hnosub
              intro hmem
              rcases List.mem_map.mp hmem with ⟨e, heem, hname⟩
              exact hnotin e ((makeRoom_sublist s s1 hm).mem heem) hname
            · exact hnosub
        · exact h
  | rel n =>
      show ((release s n).entries.map LoadedModel.name).Nodup
      rw [release_names s n]
      exact h
  | unl n =>
      show ((unload s n).entries.map LoadedModel.name).Nodup
      unfold unload
      split
      · split
        · exact h.sublist ((List.filter_sublist _).map _)
        · exact h
      · exact h

/-- The no-two-entries-per-name invariant holds along every run. -/
lemma runOps_nodup (env : Env) (ops : List Op) :
    ∀ s : CacheState, (s.entries.map LoadedModel.name).Nodup →
      ((runOps env s ops).entries.map LoadedModel.name).Nodup := by
  induction ops with
  | nil => intro s h; exact h
  | cons op t ih =>
      intro s h
      have := ih (applyOp env s op) (applyOp_nodup env op s h)
      simpa [runOps] using this

/-- No atomic operation removes a referenced entry: its name and instance
survive (in a duplicate-free table). -/
lemma referenced_survives (env : Env) (op : Op) (s : CacheState)
    (hnodup : (s.entries.map LoadedModel.name).Nodup)
    (e : LoadedModel) (he : e ∈ s.entries) (hrc : e.refCount ≠ 0) :
    ∃ e' ∈ (applyOp env s op).entries, e'.name = e.name ∧ e'.instId = e.instId := by
  cases op with
  | acq n =>
      show ∃ e' ∈ (acquire env n s).2.entries, e'.name = e.name ∧ e'.instId = e.instId
      unfold acquire
      split
      · refine ⟨_, List.mem_map_of_mem _ he, ?_⟩
        by_cases hb : (e.name == n) = true <;> simp [hb]
      · split
        · split
          · exact ⟨e, he, rfl, rfl⟩
          · rename_i s1 hm
            have he1 : e ∈ s1.entries := makeRoom_keeps_referenced s s1 hm hnodup e he hrc
            dsimp only
            split
            · exact ⟨e, List.mem_cons_of_mem _ he1, rfl, rfl⟩
            · exact ⟨e, he1, rfl, rfl⟩
        · exact ⟨e, he, rfl, rfl⟩
  | rel n =>
      show ∃ e' ∈ (release s n).entries, e'.name = e.name ∧ e'.instId = e.instId
      unfold release
      refine ⟨_, List.mem_map_of_mem _ he, ?_⟩
      by_cases hb : (e.name == n) = true <;> simp [hb]
  | unl n =>
      show ∃ e' ∈ (unload s n).entries, e'.name = e.name ∧ e'.instId = e.instId
      unfold unload
      split
      · rename_i e2 hf
        split
        · rename_i hz
          have he2 : e2 ∈ s.entries := List.mem_of_find?_eq_some hf
          have hname2 : e2.name = n := by simpa using List.find?_some hf
          have hne : e.name ≠ n := by
            intro hex
            have heq2 : e = e2 := name_inj_of_nodup s.entries hnodup e e2 he he2
              (by rw [hex, hname2])
            apply hrc
            rw [heq2]
            simpa using hz
          exact ⟨e, List.mem_filter.mpr ⟨he, by simp [hne]⟩, rfl, rfl⟩
        · exact ⟨e, he, rfl, rfl⟩
      · exact ⟨e, he, rfl, rfl⟩

/-- C4: in every state reachable by an interleaving of acquire, release
and unload operations, a loaded model with nonzero reference count is
never the selected eviction victim, and the next operation — whatever it
is — leaves that model in the cache. -/
theorem referenced_model_never_evicted (env : Env) (cap : Nat) (ops : List Op) (op : Op)
    (e : LoadedModel)
    (he : e ∈ (runOps env (initState cap) ops).entries) (hrc : e.refCount ≠ 0) :
    selectVictim (runOps env (initState cap) ops).entries ≠ some e ∧
    ∃ e' ∈ (applyOp env (runOps env (initState cap) ops) op).entries,
      e'.name = e.name ∧ e'.instId = e.instId := by
  constructor
  · intro hv
    exact hrc (selectVictim_spec _ _ hv).2.1
  · exact referenced_survives env op _
      (runOps_nodup env ops (initState cap) (by simp [initState])) e he hrc

/-- Witness for the never-evicted theorem: after acquiring "m1" into a
capacity-1 cache, the held entry is not an eviction victim and survives an
unload attempt. -/
theorem referenced_model_never_evicted_witness :
    selectVictim (runOps demoEnv (initState 1) [Op.acq "m1"]).entries ≠
        some { name := "m1", instId := 0, refCount := 1, lastAccess := 0 } ∧
    ∃ e' ∈ (applyOp demoEnv (runOps demoEnv (initState 1) [Op.acq "m1"]) (Op.unl "m1")).entries,
      e'.name = "m1" ∧ e'.instId = 0 :=
  referenced_model_never_evicted demoEnv 1 [Op.acq "m1"] (Op.unl "m1")
    { name := "m1", instId := 0, refCount := 1, lastAccess := 0 } (by decide) (by decide)

/-- Unfolding one step of `bumpEntry`. -/
lemma bumpEntry_cons (x : LoadedModel) (es : List LoadedModel) (n : String) (c : Nat) :
    bumpEntry (x :: es) n c =
      (if x.name == n then { x with refCount := x.refCount + 1, lastAccess := c } else x) ::
        bumpEntry es n c := rfl

/-- Bumping is the identity on a table without the name. -/
lemma bumpEntry_id (es : List LoadedModel) (n : String) (c : Nat) :
    (∀ e ∈ es, e.name ≠ n) → bumpEntry es n c = es := by
  induction es with
  | nil => intro _; rfl
  | cons x t ih =>
      intro h
      have hx : ¬ (x.name == n) = true := by
        simpa using h x (List.mem_cons_self x t)
      rw [bumpEntry_cons, if_neg hx]
      exact congrArg (x :: ·) (ih (fun e he => h e (List.mem_cons_of_mem x he)))

/-- Acquiring a name that heads the table is a cache hit: it returns the
loaded instance and only bumps its reference count and timestamp. -/
lemma acquire_hit_cons (env : Env) (n : String) (s : CacheState) (i c a : Nat)
    (es : List LoadedModel)
    (hs : s.entries = { name := n, instId := i, refCount := c, lastAccess := a } :: es)
    (hes : ∀ e ∈ es, e.name ≠ n) :
    acquire env n s =
      (Except.ok { name := n, instId := i },
       { s with
           entries := { name := n, instId := i, refCount := c + 1, lastAccess := s.clock } :: es,
           clock := s.clock + 1 }) := by
  have hfind : s.entries.find? (fun e => e.name == n) =
      some { name := n, instId := i, refCount := c, lastAccess := a } := by
    rw [hs]
    simp [List.find?]
  have hbump : bumpEntry s.entries n s.clock =
      { name := n, instId := i, refCount := c + 1, lastAccess := s.clock } :: es := by
    rw [hs, bumpEntry_cons, bumpEntry_id es n s.clock hes]
    simp
  simp [acquire, hfind, hbump]

/-- Acquiring an unloaded, registered, loadable name with room in the
table performs exactly one load: it logs one load attempt, inserts one
fresh LoadedModel with reference count 1, and returns its handle. -/
lemma acquire_miss_load (env : Env) (n : String) (s : CacheState)
    (hmiss : findEntry s n = none)
    (hreg : env.registered n = true)
    (hroom : s.entries.length < s.capacity)
    (hload : env.loadOk n (s.loadLog.count n) = true) :
    acquire env n s =
      (Except.ok { name := n, instId := s.nextInst },
       { capacity := s.capacity,
         entries := { name := n, instId := s.nextInst, refCount := 1, lastAccess := s.clock } :: s.entries,
         clock := s.clock + 1, nextInst := s.nextInst + 1, loadLog := n :: s.loadLog }) := by
  have hmiss' : s.entries.find? (fun e => e.name == n) = none := hmiss
  have hmr : makeRoom s = some s := by
    unfold makeRoom
    rw [if_pos hroom]
  simp [acquire, hmiss', hmr, hreg, hload]

/-- Once one caller has loaded the model at the head of the table, every
further acquire for the same name is a hit on the same instance: no load
attempt is logged, and the table keeps exactly one entry for the name,
atop the untouched rest of the table. -/
lemma acquireIter_loaded (env : Env) (n : String) (es : List LoadedModel)
    (hes : ∀ e ∈ es, e.name ≠ n) (i : Nat) :
    ∀ (k : Nat) (s : CacheState) (c a : Nat),
      s.entries = { name := n, instId := i, refCount := c, lastAccess := a } :: es →
      (∀ r ∈ (acquireIter env n k s).1, r = Except.ok { name := n, instId := i }) ∧
      (acquireIter env n k s).2.loadLog = s.loadLog ∧
      ∃ c2 a2, (acquireIter env n k s).2.entries =
        { name := n, instId := i, refCount := c2, lastAccess := a2 } :: es := by
  intro k
  induction k with
  | zero =>
      intro s c a hs
      refine ⟨?_, rfl, c, a, hs⟩
      intro r hr
      cases hr
  | succ k ih =>
      intro s c a hs
      have hstep := acquire_hit_cons env n s i c a es hs hes
      have hunf : acquireIter env n (k + 1) s =
          ((acquire env n s).1 :: (acquireIter env n k (acquire env n s).2).1,
           (acquireIter env n k (acquire env n s).2).2) := rfl
      rw [hunf, hstep]
      dsimp only
      obtain ⟨ihr, ihl, c2, a2, ihe⟩ := ih
        { s with
            entries := { name := n, instId := i, refCount := c + 1, lastAccess := s.clock } :: es,
            clock := s.clock + 1 }
        (c + 1) s.clock rfl
      refine ⟨?_, ihl, c2, a2, ihe⟩
      intro r hr
      rcases List.mem_cons.mp hr with h | h
      · exact h
      · exact ihr r h

/-- C2: for any number of callers racing to acquire the same unloaded,
registered, loadable model name (any interleaving of their atomic acquire
steps), exactly one load attempt occurs, every caller receives the same
LoadedModel instance, and at no point along the sequence does the table
hold two entries for one name. -/
theorem concurrent_acquires_one_load_same_instance (env : Env) (n : String) (s : CacheState)
    (hmiss : findEntry s n = none)
    (hreg : env.registered n = true)
    (hload : env.loadOk n (s.loadLog.count n) = true)
    (hroom : s.entries.length < s.capacity)
    (hnodup : (s.entries.map LoadedModel.name).Nodup)
    (k : Nat) :
    (∀ r ∈ (acquireIter env n (k + 1) s).1, r = Except.ok { name := n, instId := s.nextInst }) ∧
    (acquireIter env n (k + 1) s).2.loadLog.count n = s.loadLog.count n + 1 ∧
    (∀ j : Nat, ((acquireIter env n j s).2.entries.map LoadedModel.name).Nodup) := by
  have hes : ∀ e ∈ s.entries, e.name ≠ n := by
    intro e hemem hex
    have h := List.find?_eq_none.mp hmiss e hemem
    simp [hex] at h
  have hnotin : n ∉ s.entries.map LoadedModel.name := by
    intro hmem
    rcases List.mem_map.mp hmem with ⟨e, hemem, hname⟩
    exact hes e hemem hname
  have hstep := acquire_miss_load env n s hmiss hreg hroom hload
  have hunf : ∀ m : Nat, acquireIter env n (m + 1) s =
      ((acquire env n s).1 :: (acquireIter env n m (acquire env n s).2).1,
       (acquireIter env n m (acquire env n s).2).2) := fun m => rfl
  refine ⟨?_, ?_, ?_⟩
  · rw [hunf k, hstep]
    dsimp only
    obtain ⟨ihr, _, _⟩ := acquireIter_loaded env n s.entries hes s.nextInst k
      { capacity := s.capacity,
        entries := { name := n, instId := s.nextInst, refCount := 1, lastAccess := s.clock } :: s.entries,
        clock := s.clock + 1, nextInst := s.nextInst + 1, loadLog := n :: s.loadLog }
      1 s.clock rfl
    intro r hr
    rcases List.mem_cons.mp hr with h | h
    · exact h
    · exact ihr r h
  · rw [hunf k, hstep]
    dsimp only
    obtain ⟨_, ihl, _⟩ := acquireIter_loaded env n s.entries hes s.nextInst k
      { capacity := s.capacity,
        entries := { name := n, instId := s.nextInst, refCount := 1, lastAccess := s.clock } :: s.entries,
        clock := s.clock + 1, nextInst := s.nextInst + 1, loadLog := n :: s.loadLog }
      1 s.clock rfl
    rw [ihl]
    exact List.count_cons_self n s.loadLog
  · intro j
    cases j with
    | zero => exact hnodup
    | succ j2 =>
        rw [hunf j2, hstep]
        dsimp only
        obtain ⟨_, _, c2, a2, ihe⟩ := acquireIter_loaded env n s.entries hes s.nextInst j2
          { capacity := s.capacity,
            entries := { name := n, instId := s.nextInst, refCount := 1, lastAccess := s.clock } :: s.entries,
            clock := s.clock + 1, nextInst := s.nextInst + 1, loadLog := n :: s.loadLog }
          1 s.clock rfl
        rw [ihe]
        simp only [List.map_cons]
        exact List.nodup_cons.mpr ⟨hnotin, hnodup⟩

/-- Witness for the single-load theorem: two racing acquires of "m1"
against the empty capacity-2 cache. -/
theorem concurrent_acquires_one_load_same_instance_witness :
    (∀ r ∈ (acquireIter demoEnv "m1" 2 (initState 2)).1,
        r = Except.ok { name := "m1", instId := (initState 2).nextInst }) ∧
    (acquireIter demoEnv "m1" 2 (initState 2)).2.loadLog.count "m1" =
      (initState 2).loadLog.count "m1" + 1 ∧
    (∀ j : Nat, ((acquireIter demoEnv "m1" j (initState 2)).2.entries.map LoadedModel.name).Nodup) :=
  concurrent_acquires_one_load_same_instance demoEnv "m1" (initState 2) rfl rfl rfl
    (by decide) (by decide) 1

/-- C7: a failed load surfaces LoadFailed and does not poison the cache:
the only state change is the logged attempt, the table holds no entry for
the name, and a subsequent acquire for the same name performs a fresh load
attempt, which succeeds whenever the load oracle lets it. -/
theorem load_failure_no_poison_retry (env : Env) (n : String) (s : CacheState)
    (hmiss : findEntry s n = none)
    (hreg : env.registered n = true)
    (hroom : s.entries.length < s.capacity)
    (hfail : env.loadOk n (s.loadLog.count n) = false) :
    acquire env n s = (Except.error Err.loadFailed, { s with loadLog := n :: s.loadLog }) ∧
    findEntry { s with loadLog := n :: s.loadLog } n = none ∧
    ({ s with loadLog := n :: s.loadLog } : CacheState).loadLog.count n = s.loadLog.count n + 1 ∧
    (env.loadOk n (s.loadLog.count n + 1) = true →
      (acquire env n { s with loadLog := n :: s.loadLog }).1 =
        Except.ok { name := n, instId := s.nextInst }) := by
  have hmiss2 : s.entries.find? (fun e => e.name == n) = none := hmiss
  have hmr : makeRoom s = some s := by
    unfold makeRoom
    rw [if_pos hroom]
  refine ⟨?_, hmiss, List.count_cons_self n s.loadLog, ?_⟩
  · simp [acquire, hmiss2, hmr, hreg, hfail]
  · intro h2
    have hload2 : env.loadOk n (({ s with loadLog := n :: s.loadLog } : CacheState).loadLog.count n) = true := by
      show env.loadOk n ((n :: s.loadLog).count n) = true
      rw [List.count_cons_self]
      exact h2
    rw [acquire_miss_load env n { s with loadLog := n :: s.loadLog } hmiss hreg hroom hload2]

/-- Witness for the load-failure theorem: "m1" against the flaky
environment, whose first load attempt fails and second succeeds. -/
theorem load_failure_no_poison_retry_witness :
    acquire flakyEnv "m1" (initState 1) =
      (Except.error Err.loadFailed,
       { capacity := 1, entries := [], clock := 0, nextInst := 0, loadLog := ["m1"] }) ∧
    findEntry { capacity := 1, entries := [], clock := 0, nextInst := 0, loadLog := ["m1"] } "m1" = none ∧
    ({ capacity := 1, entries := [], clock := 0, nextInst := 0, loadLog := ["m1"] } : CacheState).loadLog.count "m1" =
      (initState 1).loadLog.count "m1" + 1 ∧
    (flakyEnv.loadOk "m1" ((initState 1).loadLog.count "m1" + 1) = true →
      (acquire flakyEnv "m1"
          { capacity := 1, entries := [], clock := 0, nextInst := 0, loadLog := ["m1"] }).1 =
        Except.ok { name := "m1", instId := 0 }) :=
  load_failure_no_poison_retry flakyEnv "m1" (initState 1) rfl rfl (by decide) rfl

/-- C8: when predict raises on an already-loaded model, `dispatch` returns
InferenceError, the model stays loaded (same name and instance), and its
reference count is back at its value before the request. -/
theorem predict_error_releases_and_keeps_model (env : Env) (req : InferenceRequest)
    (s : CacheState) (e : LoadedModel) (input : String)
    (hparse : env.parse req.payload = some input)
    (hentry : findEntry s req.targetModel = some e)
    (hraise : env.runPredict req.targetModel input = PredictOutcome.raise) :
    (dispatch env req s).1 = Except.error Err.inferenceError ∧
    ∃ e2 ∈ (dispatch env req s).2.1.entries,
      e2.name = e.name ∧ e2.instId = e.instId ∧ e2.refCount = e.refCount := by
  have hentry2 : s.entries.find? (fun x => x.name == req.targetModel) = some e := hentry
  have hename : e.name = req.targetModel := by simpa using List.find?_some hentry2
  have hemem : e ∈ s.entries := List.mem_of_find?_eq_some hentry2
  have hacq : acquire env req.targetModel s =
      (Except.ok { name := req.targetModel, instId := e.instId },
       { s with entries := bumpEntry s.entries req.targetModel s.clock, clock := s.clock + 1 }) := by
    simp [acquire, hentry2]
  have hdisp : dispatch env req s =
      (Except.error Err.inferenceError,
       release { s with entries := bumpEntry s.entries req.targetModel s.clock,
                        clock := s.clock + 1 } req.targetModel,
       [Event.acqEv req.targetModel, Event.relEv req.targetModel]) := by
    simp [dispatch, hparse, hacq, hraise]
  rw [hdisp]
  refine ⟨rfl, ?_⟩
  have h1 : ({ e with refCount := e.refCount + 1, lastAccess := s.clock } : LoadedModel) ∈
      bumpEntry s.entries req.targetModel s.clock := by
    have hm := List.mem_map_of_mem
      (fun x => if x.name == req.targetModel
                then { x with refCount := x.refCount + 1, lastAccess := s.clock } else x) hemem
    simpa [bumpEntry, hename] using hm
  have h2 : ({ e with refCount := e.refCount + 1 - 1, lastAccess := s.clock } : LoadedModel) ∈
      (release { s with entries := bumpEntry s.entries req.targetModel s.clock,
                        clock := s.clock + 1 } req.targetModel).entries := by
    have hm := List.mem_map_of_mem
      (fun x => if x.name == req.targetModel then { x with refCount := x.refCount - 1 } else x) h1
    simpa [release, hename] using hm
  exact ⟨_, h2, rfl, rfl, by simp⟩

/-- Witness for the predict-error theorem: predict raising on the loaded
"m1" model. -/
theorem predict_error_releases_and_keeps_model_witness :
    (dispatch demoEnv { targetModel := "m1", payload := "boom", contentType := "text/csv" }
        { capacity := 2,
          entries := [{ name := "m1", instId := 0, refCount := 1, lastAccess := 0 }],
          clock := 1, nextInst := 1, loadLog := ["m1"] }).1 = Except.error Err.inferenceError ∧
    ∃ e2 ∈ (dispatch demoEnv { targetModel := "m1", payload := "boom", contentType := "text/csv" }
        { capacity := 2,
          entries := [{ name := "m1", instId := 0, refCount := 1, lastAccess := 0 }],
          clock := 1, nextInst := 1, loadLog := ["m1"] }).2.1.entries,
      e2.name = "m1" ∧ e2.instId = 0 ∧ e2.refCount = 1 :=
  predict_error_releases_and_keeps_model demoEnv
    { targetModel := "m1", payload := "boom", contentType := "text/csv" }
    { capacity := 2,
      entries := [{ name := "m1", instId := 0, refCount := 1, lastAccess := 0 }],
      clock := 1, nextInst := 1, loadLog := ["m1"] }
    { name := "m1", instId := 0, refCount := 1, lastAccess := 0 } "boom" rfl rfl rfl

end MMS
